import Mathlib

/-!
Verification development for the spherical-projection module (projector.py) of
this repository.  The Python source is shallowly embedded: floating-point
numbers are modelled by exact reals, numpy NaN / masked entries by `Option`
(`none` = NaN or masked), raised Python exceptions by `Except PyErr`, and the
external `Rotator` collaborator by abstract function parameters.  Vectorized
numpy operations on parallel arrays are modelled elementwise on lists.
-/

noncomputable section

open Real List

/-- Degrees-to-radians factor from the module header: dtor = pi/180. -/
def dtor : ℝ := Real.pi / 180

/-- numpy around on a real value, returned as the integer it rounds to:
nearest integer, ties to the even integer (numpy rounds half to even). -/
def around (x : ℝ) : ℤ :=
  if Int.fract x < 1/2 then ⌊x⌋
  else if 1/2 < Int.fract x then ⌊x⌋ + 1
  else if ⌊x⌋ % 2 = 0 then ⌊x⌋ else ⌊x⌋ + 1

/-- Kinds of Python exceptions the translated code can raise. -/
inductive PyErr
  | typeError
  | valueError
  | notImplementedError
deriving DecidableEq

/-- Base-class SphericalProj.ang2xy: the body is a docstring and pass, so the
call succeeds and returns Python None (modelled as Except.ok none). -/
def SphericalProj.ang2xy (theta phi : ℝ) (lonlat direct : Bool) :
    Except PyErr (Option (ℝ × ℝ)) := Except.ok none

/-- Base-class SphericalProj.vec2xy: body is pass, returns Python None. -/
def SphericalProj.vec2xy (vx vy vz : ℝ) (direct : Bool) :
    Except PyErr (Option (ℝ × ℝ)) := Except.ok none

/-- Base-class SphericalProj.xy2ang: body is pass, returns Python None. -/
def SphericalProj.xy2ang (x y : ℝ) (lonlat direct : Bool) :
    Except PyErr (Option (ℝ × ℝ)) := Except.ok none

/-- Base-class SphericalProj.xy2vec: body is pass, returns Python None. -/
def SphericalProj.xy2vec (x y : ℝ) (direct : Bool) :
    Except PyErr (Option (ℝ × ℝ × ℝ)) := Except.ok none

/-- Base-class SphericalProj.xy2ij: body is pass, returns Python None. -/
def SphericalProj.xy2ij (x y : ℝ) : Except PyErr (Option (ℤ × ℤ)) := Except.ok none

/-- Base-class SphericalProj.ij2xy: body is pass, returns Python None. -/
def SphericalProj.ij2xy (i j : ℤ) : Except PyErr (Option (ℝ × ℝ)) := Except.ok none

/-- GnomonicProj.vec2xy on a scalar vector triple.  The rotation into the
projection frame (self.rotator, an external collaborator) is the abstract
parameter rot, skipped when direct.  The source masks where the first
component is at most 0 and yields NaN there (modelled by none); otherwise
plane-x = flip*vy/vx and plane-y = vz/vx. -/
def GnomonicProj.vec2xy (rot : ℝ × ℝ × ℝ → ℝ × ℝ × ℝ) (direct : Bool) (flip : ℝ)
    (v : ℝ × ℝ × ℝ) : Option ℝ × Option ℝ :=
  let vec := if direct then v else rot v
  if vec.1 ≤ 0 then (none, none)
  else (some (flip * vec.2.1 / vec.1), some (vec.2.2 / vec.1))

/-- GnomonicProj.vec2xy on parallel sequences vx, vy, vz: the source fills the
outputs with NaN and assigns the quotient formulas at unmasked positions,
which is elementwise the same branch as the scalar case.  The rotator acts
elementwise on the zipped triples. -/
def GnomonicProj.vec2xyList (rot : ℝ × ℝ × ℝ → ℝ × ℝ × ℝ) (direct : Bool) (flip : ℝ)
    (vx vy vz : List ℝ) : List (Option ℝ) × List (Option ℝ) :=
  let vecs := List.zipWith3 (fun a b c => if direct then (a,b,c) else rot (a,b,c)) vx vy vz
  (vecs.map (fun e => if e.1 ≤ 0 then none else some (flip * e.2.1 / e.1)),
   vecs.map (fun e => if e.1 ≤ 0 then none else some (e.2.2 / e.1)))

/-- GnomonicProj.xy2vec in direct mode: rm1 = 1/sqrt(1+x^2+y^2) and the
vector (rm1, flip*rm1*x, rm1*y). -/
def GnomonicProj.xy2vecDirect (flip x y : ℝ) : ℝ × ℝ × ℝ :=
  let rm1 := 1 / Real.sqrt (1 + x^2 + y^2)
  (rm1, flip * rm1 * x, rm1 * y)

/-- GnomonicProj.xy2vec: direct vector, rotated back out of the projection
frame by the abstract inverse rotator unless direct. -/
def GnomonicProj.xy2vec (rotI : ℝ × ℝ × ℝ → ℝ × ℝ × ℝ) (direct : Bool) (flip x y : ℝ) :
    ℝ × ℝ × ℝ :=
  if direct then GnomonicProj.xy2vecDirect flip x y
  else rotI (GnomonicProj.xy2vecDirect flip x y)

/-- Composition xy2vec(vec2xy(v, direct=True), direct=True) for the Gnomonic
projection; none when vec2xy masked the input. -/
def GnomonicProj.vecRoundTrip (flip : ℝ) (v : ℝ × ℝ × ℝ) : Option (ℝ × ℝ × ℝ) :=
  match GnomonicProj.vec2xy id true flip v with
  | (some x, some y) => some (GnomonicProj.xy2vecDirect flip x y)
  | _ => none

/-- Pixel size in radians: dx = reso/60 * dtor. -/
def GnomonicProj.dx (reso : ℝ) : ℝ := reso / 60 * dtor

/-- GnomonicProj.xy2ij on a scalar plane point, with array-info (xsize, ysize,
reso) passed explicitly: i = around(yc - y/dx), j = around(xc + x/dx). -/
def GnomonicProj.xy2ij (xsize ysize : ℕ) (reso x y : ℝ) : ℤ × ℤ :=
  let dx := GnomonicProj.dx reso
  let xc : ℝ := 0.5 * ((xsize : ℝ) - 1)
  let yc : ℝ := 0.5 * ((ysize : ℝ) - 1)
  (around (yc - y/dx), around (xc + x/dx))

/-- GnomonicProj.ij2xy on a scalar index pair: x = (j-xc)*dx, y = (yc-i)*dx. -/
def GnomonicProj.ij2xy (xsize ysize : ℕ) (reso : ℝ) (i j : ℤ) : ℝ × ℝ :=
  let dx := GnomonicProj.dx reso
  let xc : ℝ := 0.5 * ((xsize : ℝ) - 1)
  let yc : ℝ := 0.5 * ((ysize : ℝ) - 1)
  (((j : ℝ) - xc) * dx, (yc - (i : ℝ)) * dx)

/-- Composition xy2ij(ij2xy(i,j)) for the Gnomonic projection. -/
def GnomonicProj.ijRoundTrip (xsize ysize : ℕ) (reso : ℝ) (i j : ℤ) : ℤ × ℤ :=
  GnomonicProj.xy2ij xsize ysize reso
    (GnomonicProj.ij2xy xsize ysize reso i j).1
    (GnomonicProj.ij2xy xsize ysize reso i j).2

/-- GnomonicProj.ij2xy with no arguments: the full coordinate grid, with rows
indexed by arange(xsize) and columns by arange(ysize) as in the source outer
products.  The Gnomonic grid carries no mask, so every cell is some. -/
def GnomonicProj.ij2xyGrid (xsize ysize : ℕ) (reso : ℝ) : List (List (Option (ℝ × ℝ))) :=
  let dx := GnomonicProj.dx reso
  let xc : ℝ := 0.5 * ((xsize : ℝ) - 1)
  let yc : ℝ := 0.5 * ((ysize : ℝ) - 1)
  (List.range xsize).map (fun (a : ℕ) => (List.range ysize).map (fun (b : ℕ) =>
    some (((b : ℝ) - xc) * dx, (yc - (a : ℝ)) * dx)))

/-- MollweideProj azimuth wrap (the line phi = (phi+pi)%(2*pi)-pi): the Python
float modulo a % m is a - m*floor(a/m). -/
def MollweideProj.wrapPhi (phi : ℝ) : ℝ :=
  (phi + π) - 2*π*(⌊(phi + π)/(2*π)⌋ : ℤ) - π

/-- MollweideProj.fmoll: 2x + sin(2x) - pi*sin(args). -/
def MollweideProj.fmoll (x args : ℝ) : ℝ := 2*x + Real.sin (2*x) - π * Real.sin args

/-- MollweideProj.dfmoll: 2*(1 + cos(2x)); the args parameter is unused, as in
the source. -/
def MollweideProj.dfmoll (x args : ℝ) : ℝ := 2*(1 + Real.cos (2*x))

/-- The while loop of MollweideProj.findRoot: n Newton updates
x := x + (-f(x,argsf)/df(x,argsdf)) starting from x. -/
def MollweideProj.findRootLoop (f df : ℝ → ℝ → ℝ) (argsf argsdf : ℝ) : ℕ → ℝ → ℝ
  | 0, x => x
  | n+1, x => MollweideProj.findRootLoop f df argsf argsdf n (x + (- f x argsf / df x argsdf))

/-- MollweideProj.findRoot: clamps the iteration count by min(|niter|,1000)
(niter is a natural number here, so the absolute value is the identity) and
runs the Newton loop from the seed x0. -/
def MollweideProj.findRoot (f df : ℝ → ℝ → ℝ) (x0 argsf argsdf : ℝ) (niter : ℕ) : ℝ :=
  MollweideProj.findRootLoop f df argsf argsdf (min niter 1000) x0

/-- numpy arange(1.,180.,1.): the reals 1, 2, ..., 179. -/
def MollweideProj.arange1to180 : List ℝ := (List.range 179).map (fun (k : ℕ) => (k : ℝ) + 1)

/-- The sample latitudes (arange(1.,180.,1.) - 90)*dtor of
MollweideProj.initialise_data. -/
def MollweideProj.sampleLats : List ℝ := MollweideProj.arange1to180.map (fun t => (t - 90) * dtor)

/-- The solved auxiliary angles: findRoot(fmoll, dfmoll, X.copy(), X, niter=10)
elementwise over the sample latitudes (seed and argsf are both the latitude;
argsdf is None in the source and unused by dfmoll, modelled by passing the
latitude again). -/
def MollweideProj.sampleY : List ℝ :=
  MollweideProj.sampleLats.map (fun lat =>
    MollweideProj.findRoot MollweideProj.fmoll MollweideProj.dfmoll lat lat lat 10)

/-- The shared table X sequence: concatenate([-pi/2, X, pi/2]). -/
def MollweideProj.tableX : List ℝ := (-(π/2)) :: MollweideProj.sampleLats ++ [π/2]

/-- The shared table Y sequence: concatenate([-pi/2, Y, pi/2]). -/
def MollweideProj.tableY : List ℝ := (-(π/2)) :: MollweideProj.sampleY ++ [π/2]

/-- MollweideProj.initialise_data as a transition on the class-level molldata
list: append X and Y when the list is empty, otherwise leave it untouched. -/
def MollweideProj.initialiseData (molldata : List (List ℝ)) : List (List ℝ) :=
  if molldata.length = 0 then [MollweideProj.tableX, MollweideProj.tableY] else molldata

/-- numpy ndarray.searchsorted with the default side (left): on a sorted array
the insertion index equals the number of elements strictly below x. -/
def searchsorted (X : List ℝ) (x : ℝ) : ℕ := X.countP (fun a => decide (a < x))

/-- MollweideProj.lininterp: linear interpolation between the entries
bracketing x, indices from searchsorted; out-of-range accesses are modelled by
getD with default 0 (the source would raise instead, which claim C9 rules out
under its precondition). -/
def MollweideProj.lininterp (X Y : List ℝ) (x : ℝ) : ℝ :=
  let idx := searchsorted X x
  Y.getD (idx-1) 0 +
    (Y.getD idx 0 - Y.getD (idx-1) 0) / (X.getD idx 0 - X.getD (idx-1) 0) * (x - X.getD (idx-1) 0)

/-- MollweideProj.vec2xy after the vec2dir step (vec2dir belongs to the
external rotator module): wrap phi, lat = pi/2 - theta, A from the shared
table, then x = flip*2/pi*phi*cos(A), y = sin(A). -/
def MollweideProj.vec2xyAng (flip theta phi : ℝ) : ℝ × ℝ :=
  let phiw := MollweideProj.wrapPhi phi
  let lat := π/2 - theta
  let A := MollweideProj.lininterp MollweideProj.tableX MollweideProj.tableY lat
  (flip * 2 / π * phiw * Real.cos A, Real.sin A)

/-- MollweideProj.xy2vec valid-branch formula in direct mode. -/
def MollweideProj.xy2vecDirect (flip x y : ℝ) : ℝ × ℝ × ℝ :=
  let s := Real.sqrt ((1-y)*(1+y))
  let a := Real.arcsin y
  let z := 2/π * (a + y*s)
  let phi := flip * (π/2) * x / max s 1e-6
  let sz := Real.sqrt ((1-z)*(1+z))
  (sz * Real.cos phi, sz * Real.sin phi, z)

/-- MollweideProj.xy2ij on a scalar plane point (array-info xsize explicit,
ysize = xsize/2 by integer division): outside the ellipse the source returns
NaN for both indices (none here); otherwise j = around(x*xc/2+xc) and
i = around(yc-y*yc), returned as (i, j). -/
def MollweideProj.xy2ij (xsize : ℕ) (x y : ℝ) : Option (ℤ × ℤ) :=
  let ysize := xsize / 2
  let xc : ℝ := ((xsize : ℝ) - 1) / 2
  let yc : ℝ := ((ysize : ℝ) - 1) / 2
  if x^2/4 + y^2 > 1 then none
  else some (around (yc - y*yc), around (x*xc/2 + xc))

/-- MollweideProj.ij2xy on a scalar index pair: y = (yc-i)/yc, x = 2(j-xc)/xc,
NaN for both (none here) outside the ellipse. -/
def MollweideProj.ij2xy (xsize : ℕ) (i j : ℤ) : Option (ℝ × ℝ) :=
  let ysize := xsize / 2
  let xc : ℝ := ((xsize : ℝ) - 1) / 2
  let yc : ℝ := ((ysize : ℝ) - 1) / 2
  let y : ℝ := (yc - (i : ℝ)) / yc
  let x : ℝ := 2 * ((j : ℝ) - xc) / xc
  if x^2/4 + y^2 > 1 then none else some (x, y)

/-- Composition xy2ij(ij2xy(i,j)) for the Mollweide projection; the NaN pair
produced on a masked cell propagates as none. -/
def MollweideProj.ijRoundTrip (xsize : ℕ) (i j : ℤ) : Option (ℤ × ℤ) :=
  (MollweideProj.ij2xy xsize i j).bind (fun p => MollweideProj.xy2ij xsize p.1 p.2)

/-- MollweideProj.ij2xy with no arguments: the full grid of shape
(ysize, xsize) with ysize = xsize/2, each cell masked (none) outside the
ellipse. -/
def MollweideProj.ij2xyGrid (xsize : ℕ) : List (List (Option (ℝ × ℝ))) :=
  let ysize := xsize / 2
  let xc : ℝ := ((xsize : ℝ) - 1) / 2
  let yc : ℝ := ((ysize : ℝ) - 1) / 2
  (List.range ysize).map (fun (a : ℕ) => (List.range xsize).map (fun (b : ℕ) =>
    let y : ℝ := (yc - (a : ℝ)) / yc
    let x : ℝ := 2 * ((b : ℝ) - xc) / xc
    if x^2/4 + y^2 > 1 then none else some (x, y)))

/-- SphericalProj.projmap over an already-enumerated coordinate grid: the
image starts at -infinity everywhere (bottom of EReal) and every unmasked cell
is filled with map[vec2pix(rotI(xy2vec(cell)))], where rotI is the inverse of
the fresh Rotator built from (rot, mkcoord(coord)) (abstract here) and xy2vec
is the projection inverse already composed with the instance rotator. -/
def SphericalProj.projmap (grid : List (List (Option (ℝ × ℝ))))
    (xy2vec : ℝ × ℝ → ℝ × ℝ × ℝ) (rotI : ℝ × ℝ × ℝ → ℝ × ℝ × ℝ)
    (vec2pix : ℝ × ℝ × ℝ → ℕ) (m : ℕ → ℝ) : List (List EReal) :=
  grid.map (fun row => row.map (fun cell =>
    match cell with
    | none => (⊥ : EReal)
    | some p => ((m (vec2pix (rotI (xy2vec p))) : ℝ) : EReal)))

/-- projmap instantiated for a Gnomonic projection with array-info set:
instRotI is the inverse of the instance rotator applied inside xy2vec, mapRotI
the inverse rotator built by projmap itself. -/
def GnomonicProj.projmap (xsize ysize : ℕ) (reso flip : ℝ)
    (instRotI mapRotI : ℝ × ℝ × ℝ → ℝ × ℝ × ℝ) (vec2pix : ℝ × ℝ × ℝ → ℕ)
    (m : ℕ → ℝ) : List (List EReal) :=
  SphericalProj.projmap (GnomonicProj.ij2xyGrid xsize ysize reso)
    (fun p => GnomonicProj.xy2vec instRotI false flip p.1 p.2) mapRotI vec2pix m

/-- projmap instantiated for a Mollweide projection with array-info set; on
the unmasked grid cells (inside the ellipse) MollweideProj.xy2vec takes its
valid branch, which is xy2vecDirect followed by the instance inverse
rotator. -/
def MollweideProj.projmap (xsize : ℕ) (flip : ℝ)
    (instRotI mapRotI : ℝ × ℝ × ℝ → ℝ × ℝ × ℝ) (vec2pix : ℝ × ℝ × ℝ → ℕ)
    (m : ℕ → ℝ) : List (List EReal) :=
  SphericalProj.projmap (MollweideProj.ij2xyGrid xsize)
    (fun p => instRotI (MollweideProj.xy2vecDirect flip p.1 p.2)) mapRotI vec2pix m

/-- Python 2 long() applied to a numpy array: a single-element array converts
to its element, any other length raises TypeError. -/
def pyLong (l : List ℤ) : Except PyErr ℤ :=
  match l with
  | [a] => Except.ok a
  | _ => Except.error PyErr.typeError

/-- MollweideProj.xy2ij on sequence inputs (the hasattr branch of the source):
j = long(around(x*xc/2+xc)) and i = long(around(yc-y*yc)) go through the
single-integer conversion pyLong, then the ellipse mask is attached (a masked
scalar is none). -/
def MollweideProj.xy2ijSeq (xsize : ℕ) (xs ys : List ℝ) :
    Except PyErr (Option ℤ × Option ℤ) :=
  let ysize := xsize / 2
  let xc : ℝ := ((xsize : ℝ) - 1) / 2
  let yc : ℝ := ((ysize : ℝ) - 1) / 2
  (pyLong (xs.map (fun x => around (x*xc/2 + xc)))).bind (fun j =>
    (pyLong (ys.map (fun y => around (yc - y*yc)))).bind (fun i =>
      let mask := List.zipWith (fun x y => decide (x^2/4 + y^2 > 1)) xs ys
      if mask.any id then Except.ok (none, none) else Except.ok (some i, some j)))

/-- numpy around is the identity on values that are already integers. -/
theorem around_intCast (n : ℤ) : around ((n : ℝ)) = n := by
  unfold around
  rw [Int.fract_intCast]
  norm_num

/-- Claim C8 counterexample: the abstract base ang2xy does not fail with
NotImplemented; the call succeeds and returns Python None. -/
theorem C8_counterexample :
    SphericalProj.ang2xy 0 0 false false = Except.ok none ∧
    SphericalProj.ang2xy 0 0 false false ≠ Except.error PyErr.notImplementedError := by
  exact ⟨rfl, by simp [SphericalProj.ang2xy]⟩

/-- Claim C8 (amended): calling any of the six abstract operations ang2xy,
vec2xy, xy2ang, xy2vec, xy2ij, ij2xy on the abstract base SphericalProj
succeeds and returns Python None (each body is a docstring plus pass), with no
other behaviour and in particular no exception. -/
theorem C8_base_methods_return_none (theta phi x y vx vy vz : ℝ) (i j : ℤ)
    (lonlat direct : Bool) :
    SphericalProj.ang2xy theta phi lonlat direct = Except.ok none ∧
    SphericalProj.vec2xy vx vy vz direct = Except.ok none ∧
    SphericalProj.xy2ang x y lonlat direct = Except.ok none ∧
    SphericalProj.xy2vec x y direct = Except.ok none ∧
    SphericalProj.xy2ij x y = Except.ok none ∧
    SphericalProj.ij2xy i j = Except.ok none :=
  ⟨rfl, rfl, rfl, rfl, rfl, rfl⟩

/-- The wrapped azimuth always lies in the half-open interval from -pi
(included) to pi (excluded). -/
theorem wrapPhi_mem_Ico (phi : ℝ) :
    -π ≤ MollweideProj.wrapPhi phi ∧ MollweideProj.wrapPhi phi < π := by
  have hπ : (0:ℝ) < 2*π := by positivity
  have key : MollweideProj.wrapPhi phi = 2*π*Int.fract ((phi + π)/(2*π)) - π := by
    have h2 : 2*π*((phi + π)/(2*π)) = phi + π := by field_simp
    unfold MollweideProj.wrapPhi
    rw [Int.fract]
    linear_combination -h2
  rw [key]
  constructor
  · nlinarith [Int.fract_nonneg ((phi + π)/(2*π))]
  · nlinarith [Int.fract_lt_one ((phi + π)/(2*π))]

/-- Claim C4 counterexample: the azimuth pi wraps to exactly -pi, so the
wrapped azimuth does reach -pi (the wrap is into the interval closed at -pi
and open at pi, not the reverse). -/
theorem C4_counterexample : MollweideProj.wrapPhi π = -π := by
  unfold MollweideProj.wrapPhi
  have h1 : (π + π)/(2*π) = 1 := by
    have : π ≠ 0 := Real.pi_ne_zero
    field_simp
    ring
  rw [h1, Int.floor_one]
  push_cast
  ring

/-- Claim C4 (amended): for every input direction, MollweideProj.vec2xy wraps
the azimuth phi into the half-open interval from -pi (included) to pi
(excluded) before computing plane-x = flip*(2/pi)*phi*cos(A) and
plane-y = sin(A); the wrapped azimuth is never equal to pi, though it can
equal -pi. -/
theorem C4_vec2xy_wraps_phi (flip theta phi : ℝ) :
    -π ≤ MollweideProj.wrapPhi phi ∧ MollweideProj.wrapPhi phi < π ∧
    MollweideProj.vec2xyAng flip theta phi =
      (flip * 2 / π * MollweideProj.wrapPhi phi *
        Real.cos (MollweideProj.lininterp MollweideProj.tableX MollweideProj.tableY
          (π/2 - theta)),
       Real.sin (MollweideProj.lininterp MollweideProj.tableX MollweideProj.tableY
          (π/2 - theta))) :=
  ⟨(wrapPhi_mem_Ico phi).1, (wrapPhi_mem_Ico phi).2, rfl⟩

/-- Claim C10: MollweideProj.xy2ij on sequence inputs of length greater than
one raises a TypeError out of the single-integer conversion, while
single-element inputs produce an (i, j) result. -/
theorem C10_xy2ijSeq_raises (xsize : ℕ) (xs ys : List ℝ) (x y : ℝ)
    (hx : 1 < xs.length) (_hy : 1 < ys.length) :
    MollweideProj.xy2ijSeq xsize xs ys = Except.error PyErr.typeError ∧
    ∃ r, MollweideProj.xy2ijSeq xsize [x] [y] = Except.ok r := by
  constructor
  · match xs, hx with
    | a :: b :: t, _ =>
      simp [MollweideProj.xy2ijSeq, pyLong, Except.bind]
  · simp only [MollweideProj.xy2ijSeq, pyLong, Except.bind, List.map_cons, List.map_nil,
      List.zipWith_cons_cons, List.zipWith_nil_right, List.any_cons, List.any_nil]
    split_ifs <;> exact ⟨_, rfl⟩

/-- Witness for claim C10 at a concrete two-element input and a concrete
single-element input. -/
theorem C10_witness :
    MollweideProj.xy2ijSeq 4 [0, 0] [0, 0] = Except.error PyErr.typeError ∧
    ∃ r, MollweideProj.xy2ijSeq 4 [(0:ℝ)] [(0:ℝ)] = Except.ok r :=
  C10_xy2ijSeq_raises 4 [0, 0] [0, 0] 0 0 (by norm_num) (by norm_num)

/-- Claim C5: for a unit vector with positive first component, the Gnomonic
round trip xy2vec(vec2xy(v, direct=True), direct=True) recovers v exactly over
exact real arithmetic, for either flip convention. -/
theorem C5_gnomonic_vec_roundTrip (flip vx vy vz : ℝ)
    (hflip : flip = 1 ∨ flip = -1) (hx : 0 < vx)
    (hunit : vx^2 + vy^2 + vz^2 = 1) :
    GnomonicProj.vecRoundTrip flip (vx, vy, vz) = some (vx, vy, vz) := by
  have hvx : vx ≠ 0 := ne_of_gt hx
  have hflip2 : flip^2 = 1 := by rcases hflip with h | h <;> rw [h] <;> norm_num
  have hnle : ¬ (vx ≤ 0) := not_le.mpr hx
  have hsum : 1 + (flip * vy / vx)^2 + (vz / vx)^2 = (1/vx)^2 := by
    field_simp
    nlinarith [hflip2, hunit]
  have hsqrt : Real.sqrt (1 + (flip * vy / vx)^2 + (vz / vx)^2) = 1/vx := by
    rw [hsum]
    exact Real.sqrt_sq (by positivity)
  unfold GnomonicProj.vecRoundTrip GnomonicProj.vec2xy
  simp only [if_true, hnle, if_false, ite_true, ite_false, if_neg hnle]
  unfold GnomonicProj.xy2vecDirect
  rw [hsqrt]
  have h1 : 1 / (1/vx) = vx := by field_simp
  rw [h1]
  refine congrArg some ?_
  refine Prod.ext ?_ (Prod.ext ?_ ?_)
  · rfl
  · show flip * vx * (flip * vy / vx) = vy
    field_simp
    linear_combination vx * vy * hflip2
  · show vx * (vz / vx) = vz
    field_simp

/-- Witness for claim C5 at the unit vector (1,0,0) with the astro flip. -/
theorem C5_witness : GnomonicProj.vecRoundTrip (-1) (1, 0, 0) = some (1, 0, 0) :=
  C5_gnomonic_vec_roundTrip (-1) 1 0 0 (Or.inr rfl) (by norm_num) (by norm_num)

/-- Claim C1 counterexample: for the Mollweide projection with xsize = 4 the
in-bounds corner index (0,0) maps to the plane point (-2, 1), which lies
outside the ellipse, so ij2xy yields the masked NaN pair and the round trip
does not return (0,0). -/
theorem C1_counterexample : MollweideProj.ijRoundTrip 4 0 0 = none := by
  norm_num [MollweideProj.ijRoundTrip, MollweideProj.ij2xy]

/-- Claim C1 (amended): for the Gnomonic projection with array-info set and
nonzero reso, xy2ij inverts ij2xy exactly on every integer index pair; for the
Mollweide projection with a nondegenerate plane (xsize at least 4), the same
holds at every index pair whose ij2xy image is unmasked (inside the ellipse);
at masked index pairs, such as the array corners, the round trip yields the
NaN pair instead. -/
theorem C1_ij_roundTrip (xsize ysize : ℕ) (reso : ℝ) (i j : ℤ)
    (mxsize : ℕ) (mi mj : ℤ)
    (hreso : reso ≠ 0) (hmx : 4 ≤ mxsize)
    (hmask : MollweideProj.ij2xy mxsize mi mj ≠ none) :
    GnomonicProj.ijRoundTrip xsize ysize reso i j = (i, j) ∧
    MollweideProj.ijRoundTrip mxsize mi mj = some (mi, mj) := by
  constructor
  · have hdx : GnomonicProj.dx reso ≠ 0 := by
      unfold GnomonicProj.dx dtor
      exact mul_ne_zero (div_ne_zero hreso (by norm_num))
        (div_ne_zero Real.pi_ne_zero (by norm_num))
    simp only [GnomonicProj.ijRoundTrip, GnomonicProj.ij2xy, GnomonicProj.xy2ij]
    set d := GnomonicProj.dx reso with hd
    set xc : ℝ := 0.5 * ((xsize : ℝ) - 1) with hxcg
    set yc : ℝ := 0.5 * ((ysize : ℝ) - 1) with hycg
    have hjval : xc + ((j : ℝ) - xc) * d / d = (j : ℝ) := by
      field_simp
    have hival : yc - (yc - (i : ℝ)) * d / d = (i : ℝ) := by
      field_simp
    rw [hjval, hival, around_intCast, around_intCast]
  · have hmx4 : (4:ℝ) ≤ (mxsize : ℝ) := by exact_mod_cast hmx
    have hys2 : (2:ℕ) ≤ mxsize / 2 := by omega
    have hys2r : (2:ℝ) ≤ ((mxsize / 2 : ℕ) : ℝ) := by exact_mod_cast hys2
    simp only [MollweideProj.ijRoundTrip, MollweideProj.ij2xy, MollweideProj.xy2ij]
      at hmask ⊢
    set xc : ℝ := ((mxsize : ℝ) - 1) / 2 with hxc
    set yc : ℝ := (((mxsize / 2 : ℕ) : ℝ) - 1) / 2 with hyc
    have hxc0 : xc ≠ 0 := by
      have : (0:ℝ) < xc := by rw [hxc]; linarith
      exact ne_of_gt this
    have hyc0 : yc ≠ 0 := by
      have : (0:ℝ) < yc := by rw [hyc]; linarith
      exact ne_of_gt this
    by_cases hC : (2 * ((mj : ℝ) - xc) / xc)^2/4 + ((yc - (mi : ℝ)) / yc)^2 > 1
    · rw [if_pos hC] at hmask
      exact absurd rfl hmask
    · rw [if_neg hC]
      simp only [Option.some_bind]
      rw [if_neg hC]
      have hyval : yc - (yc - (mi : ℝ)) / yc * yc = (mi : ℝ) := by
        field_simp
      have hxval : 2 * ((mj : ℝ) - xc) / xc * xc / 2 + xc = (mj : ℝ) := by
        field_simp
      rw [hyval, hxval, around_intCast, around_intCast]

/-- Witness for claim C1: Gnomonic at xsize = ysize = 4, reso = 3/2, index
(1,2); Mollweide at xsize = 8 and the unmasked index (1,3). -/
theorem C1_witness :
    GnomonicProj.ijRoundTrip 4 4 (3/2) 1 2 = (1, 2) ∧
    MollweideProj.ijRoundTrip 8 1 3 = some (1, 3) :=
  C1_ij_roundTrip 4 4 (3/2) 1 2 8 1 3 (by norm_num) (by norm_num)
    (by
      norm_num [MollweideProj.ij2xy]
      try simp)

/-- The Newton while loop of findRoot is the 10-fold (in general n-fold)
iteration of the single Newton update t := t - f(t)/df(t). -/
theorem findRootLoop_eq_iterate (f df : ℝ → ℝ → ℝ) (argsf argsdf : ℝ) (n : ℕ) (x : ℝ) :
    MollweideProj.findRootLoop f df argsf argsdf n x =
      (fun t => t - f t argsf / df t argsdf)^[n] x := by
  induction n generalizing x with
  | zero => rfl
  | succ n ih =>
    rw [Function.iterate_succ_apply]
    simp only [MollweideProj.findRootLoop]
    rw [ih]
    congr 1
    ring

/-- The k-th sample latitude of the Mollweide table build. -/
theorem sampleLats_getD (k : ℕ) (hk : k < 179) :
    MollweideProj.sampleLats.getD k 0 = (((k : ℝ) + 1) - 90) * dtor := by
  unfold MollweideProj.sampleLats MollweideProj.arange1to180
  rw [List.map_map, List.getD_eq_getElem?_getD, List.getElem?_map, List.getElem?_range hk]
  rfl

/-- The k-th solved auxiliary angle is ten Newton iterations seeded at the
k-th sample latitude. -/
theorem sampleY_getD (k : ℕ) (hk : k < 179) :
    MollweideProj.sampleY.getD k 0 =
      (fun A => A - MollweideProj.fmoll A ((((k : ℝ) + 1) - 90) * dtor) /
        MollweideProj.dfmoll A ((((k : ℝ) + 1) - 90) * dtor))^[10]
        ((((k : ℝ) + 1) - 90) * dtor) := by
  have h10 : min (10:ℕ) 1000 = 10 := by norm_num
  have hl : MollweideProj.sampleLats[k]? = some ((((k : ℝ) + 1) - 90) * dtor) := by
    unfold MollweideProj.sampleLats MollweideProj.arange1to180
    rw [List.map_map, List.getElem?_map, List.getElem?_range hk]
    rfl
  unfold MollweideProj.sampleY
  rw [List.getD_eq_getElem?_getD, List.getElem?_map, hl, Option.map_some', Option.getD_some]
  unfold MollweideProj.findRoot
  rw [h10, findRootLoop_eq_iterate]

/-- Every sample latitude lies strictly between -pi/2 and pi/2. -/
theorem sampleLats_bounds : ∀ a ∈ MollweideProj.sampleLats, -(π/2) < a ∧ a < π/2 := by
  intro a ha
  simp only [MollweideProj.sampleLats, MollweideProj.arange1to180, List.map_map,
    List.mem_map, List.mem_range, Function.comp] at ha
  obtain ⟨k, hk, rfl⟩ := ha
  have hd : (0:ℝ) < dtor := by
    unfold dtor
    positivity
  have hk178 : (k : ℝ) ≤ 178 := by
    have : k ≤ 178 := by omega
    exact_mod_cast this
  have hk0 : (0:ℝ) ≤ (k : ℝ) := Nat.cast_nonneg k
  constructor
  · have h90 : -(π/2) = (-90) * dtor := by
      unfold dtor
      ring
    rw [h90]
    apply mul_lt_mul_of_pos_right _ hd
    linarith
  · have h90 : π/2 = 90 * dtor := by
      unfold dtor
      ring
    rw [h90]
    apply mul_lt_mul_of_pos_right _ hd
    linarith

/-- The sample latitudes are strictly increasing. -/
theorem sampleLats_sorted : List.Sorted (· < ·) MollweideProj.sampleLats := by
  unfold MollweideProj.sampleLats MollweideProj.arange1to180
  rw [List.map_map]
  have hd : (0:ℝ) < dtor := by
    unfold dtor
    positivity
  rw [List.Sorted, List.pairwise_map]
  refine List.Pairwise.imp ?_ (List.pairwise_lt_range 179)
  intro a b hab
  simp only [Function.comp]
  have hcast : (a : ℝ) < (b : ℝ) := by exact_mod_cast hab
  have : ((a : ℝ) + 1 - 90) < ((b : ℝ) + 1 - 90) := by linarith
  exact mul_lt_mul_of_pos_right this hd

/-- Claim C3 counterexample: the sample-latitude sequence has 179 entries, not
178 (arange(1,180,1) has the 179 values 1..179). -/
theorem C3_counterexample : MollweideProj.sampleLats.length ≠ 178 := by
  simp [MollweideProj.sampleLats, MollweideProj.arange1to180]

/-- Claim C3 (amended): the Mollweide shared auxiliary table is built from
exactly 179 evenly spaced sample latitudes strictly between -90 and +90
degrees (1 degree step from -89 to +89, the k-th being (k+1-90)*dtor); for
each sample latitude lat the auxiliary angle solving 2A + sin(2A) = pi*sin(lat)
is computed by exactly 10 Newton iterations A := A - fmoll(A,lat)/dfmoll(A,lat)
with derivative 2(1+cos 2A), seeded at A = lat; afterwards -pi/2 is prepended
and +pi/2 appended to both the latitude and solved-angle sequences. -/
theorem C3_table_construction :
    MollweideProj.sampleLats.length = 179 ∧
    (∀ k, k < 179 → MollweideProj.sampleLats.getD k 0 = (((k : ℝ) + 1) - 90) * dtor) ∧
    (∀ a ∈ MollweideProj.sampleLats, -(π/2) < a ∧ a < π/2) ∧
    (∀ k, k < 179 → MollweideProj.sampleY.getD k 0 =
      (fun A => A - MollweideProj.fmoll A (MollweideProj.sampleLats.getD k 0) /
        MollweideProj.dfmoll A (MollweideProj.sampleLats.getD k 0))^[10]
        (MollweideProj.sampleLats.getD k 0)) ∧
    MollweideProj.tableX = (-(π/2)) :: MollweideProj.sampleLats ++ [π/2] ∧
    MollweideProj.tableY = (-(π/2)) :: MollweideProj.sampleY ++ [π/2] := by
  refine ⟨?_, ?_, ?_, ?_, rfl, rfl⟩
  · simp [MollweideProj.sampleLats, MollweideProj.arange1to180]
  · exact fun k hk => sampleLats_getD k hk
  · exact sampleLats_bounds
  · intro k hk
    rw [sampleLats_getD k hk]
    exact sampleY_getD k hk

/-- Witness for claim C3 at the first sample index. -/
theorem C3_witness :
    MollweideProj.sampleLats.length = 179 ∧
    MollweideProj.sampleLats.getD 0 0 = ((0:ℝ) + 1 - 90) * dtor :=
  ⟨C3_table_construction.1, by
    have h := C3_table_construction.2.1 0 (by norm_num)
    simpa using h⟩

/-- Claim C7: the Mollweide auxiliary table invariant: the X sequence is
strictly increasing, the Y sequence starts at -pi/2 and ends at +pi/2, and
initialise_data leaves any already-built (nonempty) table exactly as it is,
so constructing further Mollweide instances never rebuilds or mutates the
table built by the first construction. -/
theorem C7_table_invariant :
    List.Sorted (· < ·) MollweideProj.tableX ∧
    MollweideProj.tableY.head? = some (-(π/2)) ∧
    MollweideProj.tableY.getLast? = some (π/2) ∧
    (∀ st : List (List ℝ), st ≠ [] → MollweideProj.initialiseData st = st) ∧
    MollweideProj.initialiseData (MollweideProj.initialiseData []) =
      MollweideProj.initialiseData [] := by
  refine ⟨?_, rfl, ?_, ?_, ?_⟩
  · unfold MollweideProj.tableX
    rw [List.Sorted, List.pairwise_append]
    refine ⟨?_, List.pairwise_singleton _ _, ?_⟩
    · rw [List.pairwise_cons]
      exact ⟨fun b hb => (sampleLats_bounds b hb).1, sampleLats_sorted⟩
    · intro a ha b hb
      have hb2 : b = π/2 := by simpa using hb
      subst hb2
      rcases List.mem_cons.mp ha with h | h
      · subst h
        linarith [Real.pi_pos]
      · exact (sampleLats_bounds a h).2
  · show (((-(π/2)) :: MollweideProj.sampleY) ++ [π/2]).getLast? = some (π/2)
    rw [List.getLast?_concat]
  · intro st hst
    unfold MollweideProj.initialiseData
    rw [if_neg]
    intro h
    exact hst (List.length_eq_zero.mp h)
  · simp [MollweideProj.initialiseData]

/-- Witness for claim C7: a nonempty state is left unchanged, and a second
initialisation after the first changes nothing. -/
theorem C7_witness :
    MollweideProj.initialiseData [[0]] = [[0]] ∧
    MollweideProj.initialiseData (MollweideProj.initialiseData []) =
      MollweideProj.initialiseData [] :=
  ⟨C7_table_invariant.2.2.2.1 [[0]] (by simp), C7_table_invariant.2.2.2.2⟩

/-- Claim C9: for a sorted strictly increasing table X with matching-length Y
and a query strictly between the first and last entries, the searchsorted
index idx satisfies 1 <= idx <= len(X)-1, the accesses X[idx], X[idx-1],
Y[idx], Y[idx-1] are all in bounds, and the bracket divisor X[idx]-X[idx-1]
is nonzero, so the interpolated value is defined. -/
theorem C9_lininterp_defined (X Y : List ℝ) (x : ℝ)
    (hs : List.Sorted (· < ·) X) (hne : X ≠ [])
    (hlo : X.head hne < x) (hhi : x < X.getLast hne) (hlen : Y.length = X.length) :
    1 ≤ searchsorted X x ∧ searchsorted X x ≤ X.length - 1 ∧
    searchsorted X x < X.length ∧ searchsorted X x < Y.length ∧
    X.getD (searchsorted X x) 0 - X.getD (searchsorted X x - 1) 0 ≠ 0 := by
  have hpos : 0 < searchsorted X x := by
    unfold searchsorted
    rw [List.countP_pos_iff]
    exact ⟨X.head hne, List.head_mem hne, by simpa using hlo⟩
  have hle : searchsorted X x ≤ X.length := List.countP_le_length _
  have hne_len : searchsorted X x ≠ X.length := by
    intro h
    have hall := List.countP_eq_length.mp h
    have hlast := hall (X.getLast hne) (List.getLast_mem hne)
    simp only [decide_eq_true_eq] at hlast
    linarith
  have hlt : searchsorted X x < X.length := lt_of_le_of_ne hle hne_len
  have h1 : searchsorted X x - 1 < X.length := by omega
  refine ⟨hpos, by omega, hlt, by omega, ?_⟩
  have hgl : X.getD (searchsorted X x - 1) 0 < X.getD (searchsorted X x) 0 := by
    rw [List.getD_eq_getElem X 0 hlt, List.getD_eq_getElem X 0 h1]
    have hfin : (⟨searchsorted X x - 1, h1⟩ : Fin X.length) < ⟨searchsorted X x, hlt⟩ := by
      rw [Fin.mk_lt_mk]
      omega
    have hrel := hs.rel_get_of_lt hfin
    simpa [List.get_eq_getElem] using hrel
  exact sub_ne_zero_of_ne (ne_of_gt hgl)

/-- Witness for claim C9 at the table X = [0,1,2], Y = [0,10,20] and the
query 1/2. -/
theorem C9_witness :
    1 ≤ searchsorted [0, 1, 2] (1/2) ∧
    searchsorted [0, 1, 2] (1/2) ≤ ([0, 1, 2] : List ℝ).length - 1 ∧
    searchsorted [0, 1, 2] (1/2) < ([0, 1, 2] : List ℝ).length ∧
    searchsorted [0, 1, 2] (1/2) < ([0, 10, 20] : List ℝ).length ∧
    List.getD ([0, 1, 2] : List ℝ) (searchsorted [0, 1, 2] (1/2)) 0 -
      List.getD ([0, 1, 2] : List ℝ) (searchsorted [0, 1, 2] (1/2) - 1) 0 ≠ 0 := by
  have hne : ([0, 1, 2] : List ℝ) ≠ [] := by simp
  refine C9_lininterp_defined [0, 1, 2] [0, 10, 20] (1/2) ?_ hne ?_ ?_ ?_
  · norm_num [List.sorted_cons]
  · norm_num [List.head_cons]
  · norm_num [List.getLast]
  · simp

/-- Claim C6: GnomonicProj.vec2xy yields NaN (none) for both plane outputs at
every position where the frame vector (the rotated vector, or the raw one in
direct mode) has first component at most 0, and yields
plane-x = flip*(y/x), plane-y = z/x where it is positive, both for a scalar
triple and elementwise for parallel sequences; the translated function is
total, so domain invalidity never raises an error. -/
theorem C6_gnomonic_vec2xy_mask (rot : ℝ × ℝ × ℝ → ℝ × ℝ × ℝ) (direct : Bool)
    (flip : ℝ) (v : ℝ × ℝ × ℝ) (vx vy vz : List ℝ) (k : ℕ) :
    ((if direct then v else rot v).1 ≤ 0 →
      GnomonicProj.vec2xy rot direct flip v = (none, none)) ∧
    (0 < (if direct then v else rot v).1 →
      GnomonicProj.vec2xy rot direct flip v =
        (some (flip * (if direct then v else rot v).2.1 / (if direct then v else rot v).1),
         some ((if direct then v else rot v).2.2 / (if direct then v else rot v).1))) ∧
    (∀ e : ℝ × ℝ × ℝ,
      (List.zipWith3 (fun a b c => if direct then (a, b, c) else rot (a, b, c)) vx vy vz)[k]? =
        some e →
      (GnomonicProj.vec2xyList rot direct flip vx vy vz).1[k]? =
          some (if e.1 ≤ 0 then none else some (flip * e.2.1 / e.1)) ∧
      (GnomonicProj.vec2xyList rot direct flip vx vy vz).2[k]? =
          some (if e.1 ≤ 0 then none else some (e.2.2 / e.1))) := by
  refine ⟨?_, ?_, ?_⟩
  · intro h
    simp only [GnomonicProj.vec2xy]
    rw [if_pos h]
  · intro h
    simp only [GnomonicProj.vec2xy]
    rw [if_neg (not_le.mpr h)]
  · intro e he
    simp only [GnomonicProj.vec2xyList]
    rw [List.getElem?_map, List.getElem?_map, he]
    exact ⟨rfl, rfl⟩

/-- Witness for claim C6: a scalar vector with nonpositive first component is
masked, and a singleton sequence with positive first component gets the
quotient formulas. -/
theorem C6_witness :
    GnomonicProj.vec2xy id true (-1) (-1, 5, 7) = (none, none) ∧
    (GnomonicProj.vec2xyList id true (-1) [1] [2] [3]).1[0]? =
      some (if (1:ℝ) ≤ 0 then (none : Option ℝ) else some ((-1 : ℝ) * 2 / 1)) := by
  refine ⟨(C6_gnomonic_vec2xy_mask id true (-1) (-1, 5, 7) [1] [2] [3] 0).1 (by norm_num), ?_⟩
  exact ((C6_gnomonic_vec2xy_mask id true (-1) ((-1 : ℝ), 5, 7) [1] [2] [3] 0).2.2
    ((1 : ℝ), (2 : ℝ), (3 : ℝ)) (by simp [List.zipWith3])).1

/-- In projmap over a constant source map, every cell of the image that comes
from an unmasked grid cell equals the constant and every masked cell is the
-infinity sentinel; out-of-range accesses default to the masked value on both
sides. -/
theorem projmap_getD_const (grid : List (List (Option (ℝ × ℝ))))
    (x2v : ℝ × ℝ → ℝ × ℝ × ℝ) (rotI : ℝ × ℝ × ℝ → ℝ × ℝ × ℝ)
    (v2p : ℝ × ℝ × ℝ → ℕ) (m : ℕ → ℝ) (c : ℝ) (hm : ∀ p, m p = c) (a b : ℕ) :
    ((SphericalProj.projmap grid x2v rotI v2p m).getD a []).getD b ⊥ =
      (match (grid.getD a []).getD b none with
       | none => (⊥ : EReal)
       | some _ => ((c : ℝ) : EReal)) := by
  simp only [SphericalProj.projmap, List.getD_eq_getElem?_getD, List.getElem?_map]
  cases hrow : grid[a]? with
  | none => simp
  | some row =>
    simp only [Option.map_some', Option.getD_some, List.getElem?_map]
    cases hcell : row[b]? with
    | none => simp
    | some cell =>
      cases cell with
      | none => simp
      | some p => simp [hm]

/-- The unmasked Gnomonic grid cell at in-range indices. -/
theorem gnomGrid_getD (xsize ysize : ℕ) (reso : ℝ) (a b : ℕ)
    (ha : a < xsize) (hb : b < ysize) :
    ((GnomonicProj.ij2xyGrid xsize ysize reso).getD a []).getD b none =
      some (((b : ℝ) - 0.5 * ((xsize : ℝ) - 1)) * GnomonicProj.dx reso,
        (0.5 * ((ysize : ℝ) - 1) - (a : ℝ)) * GnomonicProj.dx reso) := by
  simp [GnomonicProj.ij2xyGrid, List.getD_eq_getElem?_getD, List.getElem?_map,
    List.getElem?_range, ha, hb]

/-- Claim C2: projmap returns an image of the same shape as the discretized
plane grid; for a constant source map and a vec2pix returning a fixed index,
every cell valid under the projection mask equals the constant and every
masked cell equals -infinity.  The Gnomonic grid carries no mask, so all its
in-range cells are filled; the Mollweide grid is masked exactly outside the
ellipse. -/
theorem C2_projmap_shape_and_values (xsize ysize : ℕ) (reso flip : ℝ)
    (instRotI mapRotI : ℝ × ℝ × ℝ → ℝ × ℝ × ℝ) (vec2pix : ℝ × ℝ × ℝ → ℕ)
    (m : ℕ → ℝ) (c : ℝ) (hm : ∀ p, m p = c) :
    (GnomonicProj.projmap xsize ysize reso flip instRotI mapRotI vec2pix m).length = xsize ∧
    (∀ row ∈ GnomonicProj.projmap xsize ysize reso flip instRotI mapRotI vec2pix m,
      row.length = ysize) ∧
    (MollweideProj.projmap xsize flip instRotI mapRotI vec2pix m).length = xsize / 2 ∧
    (∀ row ∈ MollweideProj.projmap xsize flip instRotI mapRotI vec2pix m,
      row.length = xsize) ∧
    (∀ a b, a < xsize → b < ysize →
      ((GnomonicProj.projmap xsize ysize reso flip instRotI mapRotI vec2pix m).getD a
        []).getD b ⊥ = ((c : ℝ) : EReal)) ∧
    (∀ a b, ((MollweideProj.ij2xyGrid xsize).getD a []).getD b none = none →
      ((MollweideProj.projmap xsize flip instRotI mapRotI vec2pix m).getD a []).getD b ⊥ =
        (⊥ : EReal)) ∧
    (∀ a b p, ((MollweideProj.ij2xyGrid xsize).getD a []).getD b none = some p →
      ((MollweideProj.projmap xsize flip instRotI mapRotI vec2pix m).getD a []).getD b ⊥ =
        ((c : ℝ) : EReal)) := by
  refine ⟨?_, ?_, ?_, ?_, ?_, ?_, ?_⟩
  · simp [GnomonicProj.projmap, SphericalProj.projmap, GnomonicProj.ij2xyGrid]
  · intro row hrow
    simp only [GnomonicProj.projmap, SphericalProj.projmap, GnomonicProj.ij2xyGrid,
      List.map_map, List.mem_map, List.mem_range] at hrow
    obtain ⟨a, _, rfl⟩ := hrow
    simp
  · simp [MollweideProj.projmap, SphericalProj.projmap, MollweideProj.ij2xyGrid]
  · intro row hrow
    simp only [MollweideProj.projmap, SphericalProj.projmap, MollweideProj.ij2xyGrid,
      List.map_map, List.mem_map, List.mem_range] at hrow
    obtain ⟨a, _, rfl⟩ := hrow
    simp
  · intro a b ha hb
    unfold GnomonicProj.projmap
    rw [projmap_getD_const _ _ _ _ _ c hm a b, gnomGrid_getD xsize ysize reso a b ha hb]
  · intro a b h
    unfold MollweideProj.projmap
    rw [projmap_getD_const _ _ _ _ _ c hm a b, h]
  · intro a b p h
    unfold MollweideProj.projmap
    rw [projmap_getD_const _ _ _ _ _ c hm a b, h]

/-- Witness for claim C2: concrete Gnomonic shape and filled cell, a masked
Mollweide corner cell left at -infinity, and a valid Mollweide cell filled
with the constant. -/
theorem C2_witness :
    (GnomonicProj.projmap 2 1 1 1 id id (fun _ => 0) (fun _ => 5)).length = 2 ∧
    ((GnomonicProj.projmap 2 1 1 1 id id (fun _ => 0) (fun _ => 5)).getD 0 []).getD 0 ⊥ =
      ((5 : ℝ) : EReal) ∧
    ((MollweideProj.projmap 4 1 id id (fun _ => 0) (fun _ => 5)).getD 0 []).getD 0 ⊥ =
      (⊥ : EReal) ∧
    ((MollweideProj.projmap 8 1 id id (fun _ => 0) (fun _ => 5)).getD 1 []).getD 3 ⊥ =
      ((5 : ℝ) : EReal) := by
  have h := C2_projmap_shape_and_values 2 1 1 1 id id (fun _ => 0) (fun _ => 5) 5
    (fun _ => rfl)
  have h4 := C2_projmap_shape_and_values 4 0 1 1 id id (fun _ => 0) (fun _ => 5) 5
    (fun _ => rfl)
  have h8 := C2_projmap_shape_and_values 8 0 1 1 id id (fun _ => 0) (fun _ => 5) 5
    (fun _ => rfl)
  refine ⟨h.1, h.2.2.2.2.1 0 0 (by norm_num) (by norm_num), ?_, ?_⟩
  · refine h4.2.2.2.2.2.1 0 0 ?_
    norm_num [MollweideProj.ij2xyGrid, List.getD_eq_getElem?_getD, List.getElem?_map,
      List.getElem?_range]
  · refine h8.2.2.2.2.2.2 1 3 (-(2/7), 1/3) ?_
    norm_num [MollweideProj.ij2xyGrid, List.getD_eq_getElem?_getD, List.getElem?_map,
      List.getElem?_range]

end
